import Mathlib

/-!
Shallow embedding of `combine_dseg.py` (function `combine_dseg_labels`,
lines 75-163) and verification of its specification.

Labels are modelled as `Int` (the Python code coerces every label with
`int(...)`, which is the identity on the integer-valued domain the spec
admits).  The insertion-ordered Python dict `mapping` is modelled as an
association list built by appending; `k in mapping` / `mapping[k]` become
first-match lookup.  Conflict warnings, emitted through `warnings.warn`
with a message naming the label and the label it is already mapped to,
are collected as a list of pairs (label, existing target).  The voxel
array is modelled flattened, as a `List Int` of the already int-cast
values produced at line 109.
-/

set_option autoImplicit false

namespace CombineDseg

/-- Output integer dtypes the tool handles (`_dtype_from_str`, lines 29-34;
the automatic selection at lines 135-141 only ever picks the first three). -/
inductive IntDtype where
  | int8
  | int16
  | int32
  | int64
deriving DecidableEq, Repr

/-- Bit width of each dtype. -/
def IntDtype.bits : IntDtype → Nat
  | .int8 => 8
  | .int16 => 16
  | .int32 => 32
  | .int64 => 64

/-- `np.iinfo(dtype).max`, the largest representable value. -/
def IntDtype.maxVal (d : IntDtype) : Int := 2 ^ (d.bits - 1) - 1

/-- Reduction of an integer into a signed `bits`-bit cell, two's complement:
the value actually stored when a numpy assignment wraps (spec section 7
treats a too-narrow explicit dtype as silently wrapping). -/
def wrapI (bits : Nat) (v : Int) : Int :=
  let m : Int := 2 ^ bits
  let r := v % m
  if r < 2 ^ (bits - 1) then r else r - m

/-- State while building the original-to-new mapping (lines 112-129): the
insertion-ordered dictionary as an association list, and the conflict
warnings emitted so far, each recorded as the pair of the conflicting
label and the label it is already mapped to. -/
abbrev MState := List (Int × Int) × List (Int × Int)

/-- Python `mapping[k]` (and `k in mapping` via `isSome`): first entry with
the given key. -/
def lookupD : List (Int × Int) → Int → Option Int
  | [], _ => none
  | p :: ps, k => if p.1 = k then some p.2 else lookupD ps k

/-- Body of the inner `for lab in ...` loop (lines 116-119 and 124-129):
if `lab` is already a key, emit a warning carrying the existing target and
keep the first mapping; otherwise insert `lab` mapped to `newLabel`. -/
def step (st : MState) (lab newLabel : Int) : MState :=
  match lookupD st.1 lab with
  | some existing => (st.1, st.2 ++ [(lab, existing)])
  | none => (st.1 ++ [(lab, newLabel)], st.2)

/-- Inner loop over one group of original labels, all headed for the same
new label. -/
def processGroup (st : MState) (newLabel : Int) (grp : List Int) : MState :=
  grp.foldl (fun s lab => step s lab newLabel) st

/-- Explicit-mapping form (lines 113-119): iterate the dict entries in
their (insertion) order; each entry is a new label with its collection of
original labels. -/
def buildMap (entries : List (Int × List Int)) : MState :=
  entries.foldl (fun st e => processGroup st e.1 e.2) ([], [])

/-- Sequence form, lines 120-129: `next` carries `start_label + idx`. -/
def buildSeqAux : MState → Int → List (List Int) → MState
  | st, _, [] => st
  | st, next, g :: gs => buildSeqAux (processGroup st next g) (next + 1) gs

/-- Sequence-of-groups form (lines 120-129): group at 0-based index `i`
gets new label `startLabel + i`. -/
def buildSeq (groups : List (List Int)) (startLabel : Int) : MState :=
  buildSeqAux ([], []) startLabel groups

/-- The two accepted shapes of the `groups` argument; the source dispatches
with `isinstance(groups, Mapping)` (line 113). -/
inductive Groups where
  | seq (gs : List (List Int))
  | map (entries : List (Int × List Int))

/-- Dispatch of lines 113-129; `startLabel` is ignored for the dict form. -/
def buildGroups : Groups → Int → MState
  | .seq gs, s => buildSeq gs s
  | .map es, _ => buildMap es

/-- `max(mapping.values()) if mapping else 0` (line 132). -/
def maxNewLabel (m : List (Int × Int)) : Int :=
  match m with
  | [] => 0
  | p :: ps => (ps.map Prod.snd).foldl max p.2

/-- `needed_max = max(max_new, reserve)` with `reserve = 1 if preserve_zero
else 0` (lines 133-134). -/
def neededMax (m : List (Int × Int)) (preserveZero : Bool) : Int :=
  max (maxNewLabel m) (if preserveZero then 1 else 0)

/-- Automatic dtype selection (lines 136-141). -/
def autoDtype (needed : Int) : IntDtype :=
  if needed ≤ IntDtype.int8.maxVal then .int8
  else if needed ≤ IntDtype.int16.maxVal then .int16
  else .int32

/-- Lines 135-141: a caller-supplied dtype is used unchanged, otherwise the
automatic selection runs on `needed_max`. -/
def chooseDtype (outDtype : Option IntDtype) (m : List (Int × Int))
    (preserveZero : Bool) : IntDtype :=
  match outDtype with
  | some d => d
  | none => autoDtype (neededMax m preserveZero)

/-- One iteration of the application loop (lines 147-150): skip the pair
whose key is 0 when zeros are preserved, otherwise write the (dtype-
reduced) new label wherever the input voxel equals the original label.
`out[data == orig] = new` reads the mask from the untouched input `data`. -/
def applyPair (d : IntDtype) (preserveZero : Bool) (data : List Int)
    (out : List Int) (p : Int × Int) : List Int :=
  if p.1 = 0 ∧ preserveZero = true then out
  else List.zipWith (fun v o => if v = p.1 then wrapI d.bits p.2 else o) data out

/-- Lines 143-150: `out = np.zeros(data.shape, dtype)` then the loop over
the mapping items in insertion order. -/
def applyMapping (d : IntDtype) (preserveZero : Bool) (m : List (Int × Int))
    (data : List Int) : List Int :=
  m.foldl (applyPair d preserveZero data) (List.replicate data.length 0)

/-- The NIfTI header, split into the fields the transform passes through
untouched (`spatial`) and the data-dtype field that
`new_img.set_data_dtype(out_dtype)` (line 155) rewrites. -/
structure Header (S : Type) where
  spatial : S
  datatype : IntDtype
deriving DecidableEq

/-- A loaded volume: the (int-cast, flattened) voxel data, the affine, and
the header. -/
structure Volume (A S : Type) where
  data : List Int
  affine : A
  header : Header S
deriving DecidableEq

/-- The whole transform (lines 109-155, I/O stripped): build the mapping,
choose the dtype, apply the mapping, and rebuild the volume from the new
array, the input affine and a copy of the input header whose data-dtype
field is set to the output dtype. -/
def combine_dseg_labels {A S : Type} (img : Volume A S) (groups : Groups)
    (startLabel : Int) (preserveZero : Bool) (outDtype : Option IntDtype) :
    Volume A S :=
  let mapping := (buildGroups groups startLabel).1
  let d := chooseDtype outDtype mapping preserveZero
  ⟨applyMapping d preserveZero mapping img.data, img.affine,
    ⟨img.header.spatial, d⟩⟩

/-! ### Derived views of the mapping construction -/

/-- The flat list of (original label, new label) claims processed by the
sequence form, in processing order. -/
def seqPairs : Int → List (List Int) → List (Int × Int)
  | _, [] => []
  | next, g :: gs => g.map (fun lab => (lab, next)) ++ seqPairs (next + 1) gs

/-- The flat list of (original label, new label) claims processed by the
explicit-mapping form, in processing order. -/
def mapPairs (entries : List (Int × List Int)) : List (Int × Int) :=
  (entries.map (fun e => e.2.map (fun lab => (lab, e.1)))).flatten

/-- Folding the one shared per-label rule `step` over a flat claim list. -/
def foldPairs (st : MState) (ps : List (Int × Int)) : MState :=
  ps.foldl (fun s p => step s p.1 p.2) st

/-- Index of the first group containing a label, if any. -/
def firstGroupIdx : List (List Int) → Int → Option Nat
  | [], _ => none
  | g :: gs, lab => if lab ∈ g then some 0 else (firstGroupIdx gs lab).map (· + 1)

/-- The value held, after the whole application loop, by a voxel whose
input value is `v`: the new label of the last processed pair that matches
`v` and is not skipped by zero preservation. -/
def lastWrite (preserveZero : Bool) (v : Int) : List (Int × Int) → Option Int
  | [] => none
  | p :: ps =>
    match lastWrite preserveZero v ps with
    | some w => some w
    | none =>
      if p.1 = 0 ∧ preserveZero = true then none
      else if v = p.1 then some p.2 else none

/-- How many groups claim a given label (the counting notion used by the
spec's conflict-warning sentence). -/
def groupsClaiming (gs : List (List Int)) (lab : Int) : Nat :=
  (gs.filter (fun g => decide (lab ∈ g))).length

/-! ### Lemmas about lookup and the shared insertion rule -/

theorem lookupD_append (a b : List (Int × Int)) (k : Int) :
    lookupD (a ++ b) k =
      match lookupD a k with
      | some w => some w
      | none => lookupD b k := by
  induction a with
  | nil => rfl
  | cons p ps ih =>
    by_cases h : p.1 = k
    · simp [lookupD, h]
    · simp [lookupD, h, ih]

theorem lookupD_eq_none_iff (m : List (Int × Int)) (k : Int) :
    lookupD m k = none ↔ k ∉ m.map Prod.fst := by
  induction m with
  | nil => simp [lookupD]
  | cons p ps ih =>
    by_cases h : p.1 = k
    · simp [lookupD, h]
    · simp [lookupD, h, ih, Ne.symm h]

theorem lookupD_eq_some_iff (m : List (Int × Int)) (k w : Int)
    (hnd : (m.map Prod.fst).Nodup) : lookupD m k = some w ↔ (k, w) ∈ m := by
  induction m with
  | nil => simp [lookupD]
  | cons p ps ih =>
    obtain ⟨a, b⟩ := p
    rw [List.map_cons, List.nodup_cons] at hnd
    by_cases h : a = k
    · subst h
      have hl : lookupD ((a, b) :: ps) a = some b := by simp [lookupD]
      rw [hl, Option.some.injEq]
      constructor
      · intro h'
        subst h'
        exact List.mem_cons_self _ _
      · intro h'
        rcases List.mem_cons.mp h' with h' | h'
        · exact ((Prod.ext_iff.mp h').2).symm
        · exact absurd (List.mem_map_of_mem Prod.fst h') (by simpa using hnd.1)
    · simp only [lookupD, if_neg h, List.mem_cons, Prod.mk.injEq, ih hnd.2]
      constructor
      · exact Or.inr
      · rintro (⟨h1, h2⟩ | h')
        · exact absurd h1.symm h
        · exact h'

theorem lookupD_perm (m m' : List (Int × Int)) (h : m.Perm m')
    (hnd : (m.map Prod.fst).Nodup) (k : Int) : lookupD m k = lookupD m' k := by
  have hnd' : (m'.map Prod.fst).Nodup := ((h.map Prod.fst).nodup_iff).mp hnd
  cases hm : lookupD m k with
  | none =>
    have := (lookupD_eq_none_iff m k).mp hm
    have : k ∉ m'.map Prod.fst := fun hk => this ((h.map Prod.fst).mem_iff.mpr hk)
    exact ((lookupD_eq_none_iff m' k).mpr this).symm
  | some w =>
    have := (lookupD_eq_some_iff m k w hnd).mp hm
    exact ((lookupD_eq_some_iff m' k w hnd').mpr (h.mem_iff.mp this)).symm

theorem foldPairs_append (st : MState) (a b : List (Int × Int)) :
    foldPairs st (a ++ b) = foldPairs (foldPairs st a) b :=
  List.foldl_append _ _ _ _

theorem processGroup_eq_foldPairs (g : List Int) (newLabel : Int) :
    ∀ st : MState, processGroup st newLabel g =
      foldPairs st (g.map (fun lab => (lab, newLabel))) := by
  induction g with
  | nil => intro st; rfl
  | cons lab g ih => intro st; exact ih (step st lab newLabel)

theorem buildSeqAux_eq_foldPairs (gs : List (List Int)) :
    ∀ (st : MState) (next : Int),
      buildSeqAux st next gs = foldPairs st (seqPairs next gs) := by
  induction gs with
  | nil => intro st next; rfl
  | cons g gs ih =>
    intro st next
    rw [buildSeqAux, seqPairs, foldPairs_append, ← processGroup_eq_foldPairs]
    exact ih _ _

theorem buildSeq_eq_foldPairs (gs : List (List Int)) (s : Int) :
    buildSeq gs s = foldPairs ([], []) (seqPairs s gs) :=
  buildSeqAux_eq_foldPairs gs ([], []) s

theorem buildMap_eq_foldPairs_aux (entries : List (Int × List Int)) :
    ∀ st : MState,
      entries.foldl (fun st e => processGroup st e.1 e.2) st =
        foldPairs st (mapPairs entries) := by
  induction entries with
  | nil => intro st; rfl
  | cons e es ih =>
    intro st
    rw [List.foldl_cons, ih]
    simp only [mapPairs, List.map_cons, List.flatten_cons]
    rw [foldPairs_append, ← processGroup_eq_foldPairs]

theorem buildMap_eq_foldPairs (entries : List (Int × List Int)) :
    buildMap entries = foldPairs ([], []) (mapPairs entries) :=
  buildMap_eq_foldPairs_aux entries ([], [])

theorem lookupD_foldPairs (ps : List (Int × Int)) :
    ∀ (st : MState) (k : Int),
      lookupD (foldPairs st ps).1 k =
        match lookupD st.1 k with
        | some w => some w
        | none => lookupD ps k := by
  induction ps with
  | nil =>
    intro st k
    cases h : lookupD st.1 k <;> simp [foldPairs, h, lookupD]
  | cons p ps ih =>
    intro st k
    have hstep : foldPairs st (p :: ps) = foldPairs (step st p.1 p.2) ps := rfl
    rw [hstep, ih]
    unfold step
    cases hp : lookupD st.1 p.1 with
    | some e =>
      cases hk : lookupD st.1 k with
      | some w => simp
      | none =>
        have hne : ¬ p.1 = k := fun h => by rw [h, hk] at hp; exact Option.noConfusion hp
        simp [lookupD, hne]
    | none =>
      cases hk : lookupD st.1 k with
      | some w => simp [lookupD_append, hk]
      | none =>
        simp only [lookupD_append, hk, lookupD]
        by_cases hpk : p.1 = k
        · simp [hpk]
        · simp [hpk]

theorem lookupD_foldPairs_nil (ps : List (Int × Int)) (k : Int) :
    lookupD (foldPairs ([], []) ps).1 k = lookupD ps k := by
  rw [lookupD_foldPairs]
  rfl

theorem foldPairs_warns_nil (ps : List (Int × Int)) :
    ∀ st : MState,
      (foldPairs st ps).2 = [] ↔
        st.2 = [] ∧ (ps.map Prod.fst).Nodup ∧
          ∀ q ∈ ps, lookupD st.1 q.1 = none := by
  induction ps with
  | nil =>
    intro st
    simp [foldPairs]
  | cons p ps ih =>
    intro st
    have hstep : foldPairs st (p :: ps) = foldPairs (step st p.1 p.2) ps := rfl
    rw [hstep, ih]
    unfold step
    cases hp : lookupD st.1 p.1 with
    | some e =>
      simp only [List.append_eq_nil, List.cons_ne_nil, and_false, false_and,
        List.map_cons, List.nodup_cons]
      constructor
      · intro h
        exact absurd h (by simp)
      · rintro ⟨_, _, hq⟩
        rw [hq p (List.mem_cons_self _ _)] at hp
        exact Option.noConfusion hp
    | none =>
      simp only [List.map_cons, List.nodup_cons]
      constructor
      · rintro ⟨h2, hnd, hq⟩
        refine ⟨h2, ⟨?_, hnd⟩, ?_⟩
        · intro hmem
          rcases List.mem_map.mp hmem with ⟨q, hqmem, hqfst⟩
          have := hq q hqmem
          rw [lookupD_append] at this
          rw [← hqfst] at this
          revert this
          cases hl : lookupD st.1 q.1 with
          | some w => intro h'; exact Option.noConfusion h'
          | none => simp [lookupD]
        · intro q hqmem
          rcases List.mem_cons.mp hqmem with h | h
          · rw [h]; exact hp
          · have := hq q h
            rw [lookupD_append] at this
            revert this
            cases hl : lookupD st.1 q.1 with
            | some w => intro h'; exact Option.noConfusion h'
            | none => intro _; rfl
      · rintro ⟨h2, ⟨hmem, hnd⟩, hq⟩
        refine ⟨h2, hnd, ?_⟩
        intro q hqmem
        rw [lookupD_append, hq q (List.mem_cons_of_mem _ hqmem)]
        have hne : ¬ p.1 = q.1 := by
          intro h
          exact hmem (h ▸ List.mem_map_of_mem Prod.fst hqmem)
        simp [lookupD, hne]

theorem lookupD_persists (ps : List (Int × Int)) (st : MState) (k w : Int)
    (h : lookupD st.1 k = some w) : lookupD (foldPairs st ps).1 k = some w := by
  rw [lookupD_foldPairs, h]

theorem warns_sound (ps : List (Int × Int)) :
    ∀ st : MState, (∀ w ∈ st.2, lookupD st.1 w.1 = some w.2) →
      ∀ w ∈ (foldPairs st ps).2, lookupD (foldPairs st ps).1 w.1 = some w.2 := by
  induction ps with
  | nil =>
    intro st h
    exact h
  | cons p ps ih =>
    intro st h
    have hstep : foldPairs st (p :: ps) = foldPairs (step st p.1 p.2) ps := rfl
    rw [hstep]
    refine ih (step st p.1 p.2) ?_
    unfold step
    cases hp : lookupD st.1 p.1 with
    | some e =>
      intro w hw
      rcases List.mem_append.mp hw with hw | hw
      · exact h w hw
      · rcases List.mem_singleton.mp hw with rfl
        exact hp
    | none =>
      intro w hw
      rw [lookupD_append, h w hw]

theorem map_fst_mapGroup (g : List Int) (n : Int) :
    (g.map (fun lab => (lab, n))).map Prod.fst = g := by
  rw [List.map_map]
  have h : (Prod.fst ∘ fun lab : Int => (lab, n)) = id := funext (fun _ => rfl)
  rw [h, List.map_id]

theorem seqPairs_map_fst (gs : List (List Int)) :
    ∀ next : Int, (seqPairs next gs).map Prod.fst = gs.flatten := by
  induction gs with
  | nil => intro next; rfl
  | cons g gs ih =>
    intro next
    rw [seqPairs, List.map_append, map_fst_mapGroup, ih, List.flatten_cons]

theorem mapPairs_map_fst (entries : List (Int × List Int)) :
    (mapPairs entries).map Prod.fst = (entries.map Prod.snd).flatten := by
  induction entries with
  | nil => rfl
  | cons e es ih =>
    show ((e.2.map (fun lab => (lab, e.1))) ++ mapPairs es).map Prod.fst = _
    rw [List.map_append, map_fst_mapGroup, ih, List.map_cons, List.flatten_cons]

theorem lookupD_mapGroup (g : List Int) (newLabel lab : Int) :
    lookupD (g.map (fun l => (l, newLabel))) lab =
      if lab ∈ g then some newLabel else none := by
  induction g with
  | nil => simp [lookupD]
  | cons a g ih =>
    by_cases h : a = lab
    · simp [lookupD, h]
    · simp only [List.map_cons, lookupD, if_neg h, ih, List.mem_cons]
      have : ¬ lab = a := fun h' => h h'.symm
      simp [this]

theorem lookupD_seqPairs (gs : List (List Int)) :
    ∀ (next lab : Int),
      lookupD (seqPairs next gs) lab =
        Option.map (fun i : Nat => next + (i : Int)) (firstGroupIdx gs lab) := by
  induction gs with
  | nil => intro next lab; rfl
  | cons g gs ih =>
    intro next lab
    rw [seqPairs, lookupD_append, lookupD_mapGroup, firstGroupIdx]
    by_cases h : lab ∈ g
    · simp [h]
    · simp only [if_neg h, ih]
      cases hfi : firstGroupIdx gs lab with
      | none => rfl
      | some i =>
        simp only [Option.map_some', Option.map_map, Function.comp]
        congr 1
        push_cast
        ring

/-! ### Lemmas about the application loop -/

theorem zipWith_getElem? (f : Int → Int → Int) :
    ∀ (as bs : List Int) (i : Nat),
      (List.zipWith f as bs)[i]? =
        match as[i]?, bs[i]? with
        | some a, some b => some (f a b)
        | _, _ => none := by
  intro as
  induction as with
  | nil => intro bs i; cases bs <;> simp
  | cons a as ih =>
    intro bs i
    cases bs with
    | nil => simp
    | cons b bs =>
      cases i with
      | zero => simp
      | succ n => simpa using ih bs n

theorem applyPair_length (d : IntDtype) (pz : Bool) (data out : List Int)
    (p : Int × Int) (h : out.length = data.length) :
    (applyPair d pz data out p).length = data.length := by
  unfold applyPair
  by_cases hc : p.1 = 0 ∧ pz = true
  · simp [hc, h]
  · simp [hc, List.length_zipWith, h]

theorem foldl_applyPair_length (d : IntDtype) (pz : Bool) (data : List Int)
    (m : List (Int × Int)) :
    ∀ out : List Int, out.length = data.length →
      (m.foldl (applyPair d pz data) out).length = data.length := by
  induction m with
  | nil => intro out h; exact h
  | cons p ps ih =>
    intro out h
    rw [List.foldl_cons]
    exact ih _ (applyPair_length d pz data out p h)

theorem applyMapping_length (d : IntDtype) (pz : Bool) (m : List (Int × Int))
    (data : List Int) : (applyMapping d pz m data).length = data.length :=
  foldl_applyPair_length d pz data m _ (List.length_replicate _ _)

theorem foldl_applyPair_getElem? (d : IntDtype) (pz : Bool) (data : List Int)
    (i : Nat) (v : Int) (hv : data[i]? = some v) :
    ∀ (m : List (Int × Int)) (out : List Int), out.length = data.length →
      (m.foldl (applyPair d pz data) out)[i]? =
        match lastWrite pz v m with
        | some w => some (wrapI d.bits w)
        | none => out[i]? := by
  intro m
  induction m with
  | nil =>
    intro out h
    simp [lastWrite]
  | cons p ps ih =>
    intro out h
    rw [List.foldl_cons, ih (applyPair d pz data out p) (applyPair_length d pz data out p h)]
    cases hlw : lastWrite pz v ps with
    | some w => simp [lastWrite, hlw]
    | none =>
      simp only [lastWrite, hlw]
      by_cases hskip : p.1 = 0 ∧ pz = true
      · simp [applyPair, hskip]
      · simp only [applyPair, if_neg hskip]
        rw [zipWith_getElem?, hv]
        have hi : i < data.length := by
          rcases List.getElem?_eq_some.mp hv with ⟨hlt, _⟩
          exact hlt
        cases ho : out[i]? with
        | none =>
          exact absurd ho (by
            have : i < out.length := h ▸ hi
            simp [List.getElem?_eq_getElem this])
        | some o =>
          by_cases hv' : v = p.1
          · simp [hv', hskip]
          · simp [hv', ho]

theorem applyMapping_getElem? (d : IntDtype) (pz : Bool) (m : List (Int × Int))
    (data : List Int) (i : Nat) (v : Int) (hv : data[i]? = some v) :
    (applyMapping d pz m data)[i]? =
      some ((lastWrite pz v m).elim 0 (wrapI d.bits)) := by
  have hi : i < data.length := by
    rcases List.getElem?_eq_some.mp hv with ⟨hlt, _⟩
    exact hlt
  unfold applyMapping
  rw [foldl_applyPair_getElem? d pz data i v hv m (List.replicate data.length 0)
    (List.length_replicate _ _)]
  cases lastWrite pz v m with
  | some w => rfl
  | none => simp [List.getElem?_replicate, hi]

theorem lastWrite_zero (m : List (Int × Int)) :
    lastWrite true 0 m = none := by
  induction m with
  | nil => rfl
  | cons p ps ih =>
    rw [lastWrite, ih]
    by_cases h : p.1 = 0 ∧ true = true
    · simp [h]
    · have hne : ¬ (0 : Int) = p.1 := by
        intro h0
        exact h ⟨h0.symm, rfl⟩
      simp [h, hne]

theorem lastWrite_of_lookup_none (pz : Bool) (v : Int) (m : List (Int × Int))
    (h : lookupD m v = none) : lastWrite pz v m = none := by
  induction m with
  | nil => rfl
  | cons p ps ih =>
    rw [lookupD] at h
    by_cases hp : p.1 = v
    · rw [if_pos hp] at h
      exact Option.noConfusion h
    · rw [if_neg hp] at h
      rw [lastWrite, ih h]
      have hvp : ¬ v = p.1 := fun h' => hp h'.symm
      by_cases hskip : p.1 = 0 ∧ pz = true
      · simp [hskip]
      · simp [hskip, hvp]

theorem lastWrite_of_nodup (pz : Bool) (v : Int) (m : List (Int × Int))
    (hnd : (m.map Prod.fst).Nodup) :
    lastWrite pz v m =
      if v = 0 ∧ pz = true then none else lookupD m v := by
  induction m with
  | nil =>
    cases h : decide (v = 0 ∧ pz = true) <;> simp [lastWrite, lookupD]
  | cons p ps ih =>
    rw [List.map_cons, List.nodup_cons] at hnd
    have hps := ih hnd.2
    by_cases hc : v = 0 ∧ pz = true
    · rw [if_pos hc]
      rw [lastWrite, hps, if_pos hc]
      by_cases hskip : p.1 = 0 ∧ pz = true
      · simp [hskip]
      · have hvp : ¬ v = p.1 := by
          intro h'
          exact hskip ⟨h' ▸ hc.1, hc.2⟩
        simp [hskip, hvp]
    · rw [if_neg hc]
      by_cases hp : p.1 = v
      · have hlkps : lookupD ps v = none := by
          rw [lookupD_eq_none_iff]
          exact hp ▸ hnd.1
        rw [lastWrite, hps, if_neg hc, hlkps]
        have hskip : ¬ (p.1 = 0 ∧ pz = true) := by
          intro h'
          exact hc ⟨hp ▸ h'.1, h'.2⟩
        simp only [hskip, if_false, if_neg hskip, lookupD, hp, if_pos rfl]
        rw [if_neg hc]
        simp
      · rw [lastWrite, hps, if_neg hc]
        have hvp : ¬ v = p.1 := fun h' => hp h'.symm
        cases hl : lookupD ps v with
        | some w => simp [lookupD, hp, hl]
        | none =>
          by_cases hskip : p.1 = 0 ∧ pz = true
          · have hv0 : ¬ (0 : Int) = v := by
              intro h0
              exact hc ⟨h0.symm, hskip.2⟩
            simp [hskip, lookupD, hp, hv0, hl]
          · simp [hskip, hvp, lookupD, hp, hl]

theorem firstGroupIdx_isSome (gs : List (List Int)) (lab : Int)
    (h : lab ∈ gs.flatten) : (firstGroupIdx gs lab).isSome = true := by
  induction gs with
  | nil => simp at h
  | cons g gs ih =>
    rw [List.flatten_cons, List.mem_append] at h
    rw [firstGroupIdx]
    by_cases hg : lab ∈ g
    · simp [hg]
    · rcases h with h | h
      · exact absurd h hg
      · simp [hg, ih h]

theorem zipWith_nomatch (k w : Int) :
    ∀ (data out : List Int), out.length = data.length →
      (∀ v ∈ data, v ≠ k) →
      List.zipWith (fun v o => if v = k then w else o) data out = out := by
  intro data
  induction data with
  | nil =>
    intro out h _
    have hout : out = [] := List.length_eq_zero.mp (by simpa using h)
    subst hout
    rfl
  | cons a as ih =>
    intro out h hn
    cases out with
    | nil => simp at h
    | cons o os =>
      rw [List.zipWith_cons_cons]
      have ha : a ≠ k := hn a (List.mem_cons_self _ _)
      rw [if_neg ha]
      congr 1
      exact ih os (by simpa using h) (fun v hv => hn v (List.mem_cons_of_mem _ hv))

theorem applyPair_nomatch (d : IntDtype) (pz : Bool) (data out : List Int)
    (p : Int × Int) (h : out.length = data.length)
    (hn : ∀ v ∈ data, v ≠ p.1) : applyPair d pz data out p = out := by
  unfold applyPair
  by_cases hc : p.1 = 0 ∧ pz = true
  · rw [if_pos hc]
  · rw [if_neg hc]
    exact zipWith_nomatch p.1 (wrapI d.bits p.2) data out h hn

/-! ### Claim theorems -/

/-- Claim C1: in the sequence-of-groups form, a label is mapped to
`start_label + i` where `i` is the index of the first group containing it
(first assignment wins, later claims are skipped); every emitted warning
pairs the conflicting label with the label it is already (and finally)
mapped to; and for groups `[[1,2],[2,3]]` with `start_label = 1` the built
mapping is exactly 1 mapped to 1, 2 mapped to 1, 3 mapped to 2, with
exactly one conflict warning, for label 2 with existing target 1. -/
theorem seq_form_first_wins :
    (∀ (gs : List (List Int)) (s lab : Int),
        lookupD (buildSeq gs s).1 lab =
          Option.map (fun i : Nat => s + (i : Int)) (firstGroupIdx gs lab))
    ∧ (∀ (gs : List (List Int)) (s lab t : Int),
        (lab, t) ∈ (buildSeq gs s).2 → lookupD (buildSeq gs s).1 lab = some t)
    ∧ buildSeq [[1, 2], [2, 3]] 1 = ([(1, 1), (2, 1), (3, 2)], [(2, 1)]) := by
  refine ⟨?_, ?_, by decide⟩
  · intro gs s lab
    rw [buildSeq_eq_foldPairs, lookupD_foldPairs_nil, lookupD_seqPairs]
  · intro gs s lab t hmem
    rw [buildSeq_eq_foldPairs] at hmem ⊢
    exact warns_sound (seqPairs s gs) ([], [])
      (fun w hw => absurd hw (List.not_mem_nil w)) (lab, t) hmem

/-- Witness for C1: label 2 received a conflict warning with existing
target 1, and is indeed finally mapped to 1. -/
theorem seq_form_first_wins_witness :
    (2, 1) ∈ (buildSeq [[1, 2], [2, 3]] 1).2 ∧
      lookupD (buildSeq [[1, 2], [2, 3]] 1).1 2 = some 1 :=
  ⟨by decide, seq_form_first_wins.2.1 [[1, 2], [2, 3]] 1 2 1 (by decide)⟩

/-- Claim C2: with `preserve_zero = true` every voxel whose input value is
0 stays 0 in the output, whatever the mapping holds, and the application
step skips any mapping pair whose key is 0 entirely. -/
theorem preserve_zero_keeps_zero :
    (∀ (d : IntDtype) (m : List (Int × Int)) (data : List Int) (i : Nat),
        data[i]? = some 0 → (applyMapping d true m data)[i]? = some 0)
    ∧ (∀ (d : IntDtype) (data out : List Int) (p : Int × Int),
        p.1 = 0 → applyPair d true data out p = out) := by
  constructor
  · intro d m data i h
    rw [applyMapping_getElem? d true m data i 0 h, lastWrite_zero]
    rfl
  · intro d data out p hp
    unfold applyPair
    rw [if_pos ⟨hp, rfl⟩]

/-- Witness for C2: input `[0, 5]` with 0 explicitly mapped to 9 still
yields 0 at the zero voxel. -/
theorem preserve_zero_keeps_zero_witness :
    ([0, 5] : List Int)[0]? = some 0 ∧
      (applyMapping IntDtype.int8 true [(0, 9), (5, 2)] [0, 5])[0]? = some 0 :=
  ⟨by decide,
    preserve_zero_keeps_zero.1 IntDtype.int8 [(0, 9), (5, 2)] [0, 5] 0 (by decide)⟩

/-- Claim C4: a voxel whose value is not a key of the mapping comes out as
0, and the transform is total, producing an output of the input's length
(no error is ever raised). -/
theorem unmapped_becomes_zero :
    (∀ (d : IntDtype) (pz : Bool) (m : List (Int × Int)) (data : List Int)
        (i : Nat) (v : Int),
        data[i]? = some v → lookupD m v = none →
        (applyMapping d pz m data)[i]? = some 0)
    ∧ (∀ (d : IntDtype) (pz : Bool) (m : List (Int × Int)) (data : List Int),
        (applyMapping d pz m data).length = data.length) := by
  constructor
  · intro d pz m data i v hv hl
    rw [applyMapping_getElem? d pz m data i v hv, lastWrite_of_lookup_none pz v m hl]
    rfl
  · intro d pz m data
    exact applyMapping_length d pz m data

/-- Witness for C4: value 7 has no entry in the mapping `[(1, 2)]` and
comes out as 0. -/
theorem unmapped_becomes_zero_witness :
    ([7] : List Int)[0]? = some 7 ∧ lookupD [(1, 2)] 7 = none ∧
      (applyMapping IntDtype.int8 true [(1, 2)] [7])[0]? = some 0 :=
  ⟨by decide, by decide,
    unmapped_becomes_zero.1 IntDtype.int8 true [(1, 2)] [7] 0 7 (by decide) (by decide)⟩

/-- Counterexample to claim C3 as stated: with a new label of 2^31 the
needed maximum exceeds every candidate width, yet the code still selects
signed 32-bit, whose maximum is smaller than the needed maximum — so the
selected width is not "a width whose maximum is at least the needed
maximum". -/
theorem width_selection_counterexample :
    chooseDtype none [(5, 2147483648)] true = IntDtype.int32 ∧
      IntDtype.maxVal (chooseDtype none [(5, 2147483648)] true) <
        neededMax [(5, 2147483648)] true := by
  decide

/-- Claim C3 (amended): when no explicit dtype is supplied, the selection
is signed 8-bit iff needed ≤ 127, 16-bit iff 127 < needed ≤ 32767, and
32-bit otherwise — i.e. the smallest sufficient width whenever the needed
maximum fits 32 bits, with 32-bit used as the unconditional fallback
beyond that; an explicit dtype is used unchanged with no validation; max
new label 100 with preserve_zero selects 8-bit and 200 selects 16-bit. -/
theorem width_selection_amended :
    (∀ n : Int, (autoDtype n = IntDtype.int8 ↔ n ≤ 127)
      ∧ (autoDtype n = IntDtype.int16 ↔ 127 < n ∧ n ≤ 32767)
      ∧ (autoDtype n = IntDtype.int32 ↔ 32767 < n))
    ∧ (∀ (d : IntDtype) (m : List (Int × Int)) (pz : Bool),
        chooseDtype (some d) m pz = d)
    ∧ (∀ (m : List (Int × Int)) (pz : Bool),
        chooseDtype none m pz = autoDtype (neededMax m pz))
    ∧ chooseDtype none [(1, 100)] true = IntDtype.int8
    ∧ chooseDtype none [(1, 200)] true = IntDtype.int16 := by
  refine ⟨?_, fun d m pz => rfl, fun m pz => rfl, by decide, by decide⟩
  intro n
  unfold autoDtype
  have h8 : IntDtype.maxVal IntDtype.int8 = 127 := by decide
  have h16 : IntDtype.maxVal IntDtype.int16 = 32767 := by decide
  rw [h8, h16]
  split_ifs with ha hb
  · exact ⟨iff_of_true rfl ha, iff_of_false (by decide) (by omega),
      iff_of_false (by decide) (by omega)⟩
  · exact ⟨iff_of_false (by decide) (by omega), iff_of_true rfl (by omega),
      iff_of_false (by decide) (by omega)⟩
  · exact ⟨iff_of_false (by decide) (by omega), iff_of_false (by decide) (by omega),
      iff_of_true rfl (by omega)⟩

/-- Counterexample to claim C5 as stated: for groups `[[1, 1]]` a conflict
warning is emitted for label 1 (carrying its first target 1), yet label 1
is claimed by exactly one group — "claimed by more than one group" does
not cover a repeat inside one group. -/
theorem conflict_warning_counterexample :
    (buildSeq [[1, 1]] 1).2 = [(1, 1)] ∧ groupsClaiming [[1, 1]] 1 = 1 := by
  decide

/-- Claim C5 (amended): a conflict warning is emitted iff some original
label occurs more than once in the concatenation of all groups (or of all
mapping-entry collections), repeats inside a single group or entry
included; the warnings are non-fatal — construction always completes, and
every claimed label ends up as a key of the mapping. -/
theorem conflict_warning_iff :
    (∀ (gs : List (List Int)) (s : Int),
        (buildSeq gs s).2 = [] ↔ gs.flatten.Nodup)
    ∧ (∀ entries : List (Int × List Int),
        (buildMap entries).2 = [] ↔ (entries.map Prod.snd).flatten.Nodup)
    ∧ (∀ (gs : List (List Int)) (s lab : Int), lab ∈ gs.flatten →
        (lookupD (buildSeq gs s).1 lab).isSome = true)
    ∧ (∀ (entries : List (Int × List Int)) (lab : Int),
        lab ∈ (entries.map Prod.snd).flatten →
        (lookupD (buildMap entries).1 lab).isSome = true) := by
  refine ⟨?_, ?_, ?_, ?_⟩
  · intro gs s
    have h := foldPairs_warns_nil (seqPairs s gs) ([], [])
    rw [buildSeq_eq_foldPairs, h, seqPairs_map_fst]
    simp [lookupD]
  · intro entries
    have h := foldPairs_warns_nil (mapPairs entries) ([], [])
    rw [buildMap_eq_foldPairs, h, mapPairs_map_fst]
    simp [lookupD]
  · intro gs s lab hmem
    rw [buildSeq_eq_foldPairs, lookupD_foldPairs_nil, lookupD_seqPairs]
    have hfi := firstGroupIdx_isSome gs lab hmem
    cases hf : firstGroupIdx gs lab with
    | none => rw [hf] at hfi; exact absurd hfi (by decide)
    | some i => rfl
  · intro entries lab hmem
    rw [buildMap_eq_foldPairs, lookupD_foldPairs_nil]
    rw [← mapPairs_map_fst] at hmem
    cases hl : lookupD (mapPairs entries) lab with
    | none => exact absurd hmem ((lookupD_eq_none_iff _ _).mp hl)
    | some w => rfl

/-- Witness for C5 (amended): label 1, claimed twice inside the single
group `[1, 1]`, still ends up mapped after the non-fatal warning. -/
theorem conflict_warning_iff_witness :
    (1 : Int) ∈ ([[1, 1]] : List (List Int)).flatten ∧
      (lookupD (buildSeq [[1, 1]] 1).1 1).isSome = true :=
  ⟨by decide, conflict_warning_iff.2.2.1 [[1, 1]] 1 1 (by decide)⟩

/-- Claim C6: both grouping forms reduce to folding the one shared
per-label first-wins rule `step` over their flat claim lists, and in the
explicit-mapping form a label's final target is the new label of the first
entry claiming it (labels being integers already, Python's `int()`
coercion at insertion is the identity on them). -/
theorem map_form_identical_rule :
    (∀ entries : List (Int × List Int),
        buildMap entries = foldPairs ([], []) (mapPairs entries))
    ∧ (∀ (gs : List (List Int)) (s : Int),
        buildSeq gs s = foldPairs ([], []) (seqPairs s gs))
    ∧ (∀ (entries : List (Int × List Int)) (lab : Int),
        lookupD (buildMap entries).1 lab = lookupD (mapPairs entries) lab) := by
  refine ⟨buildMap_eq_foldPairs, buildSeq_eq_foldPairs, ?_⟩
  intro entries lab
  rw [buildMap_eq_foldPairs, lookupD_foldPairs_nil]

/-- Claim C7: the output array does not depend on the iteration order over
the mapping's pairs — any permutation of a duplicate-key-free mapping
yields the same output — because each voxel's final value is determined
pointwise by looking its input value up in the mapping (each voxel is
written by at most the one pair whose key it holds). -/
theorem apply_order_invariant :
    ∀ (d : IntDtype) (pz : Bool) (data : List Int) (m m' : List (Int × Int)),
      (m.map Prod.fst).Nodup → m'.Perm m →
      applyMapping d pz m' data = applyMapping d pz m data
      ∧ ∀ (i : Nat) (v : Int), data[i]? = some v →
          (applyMapping d pz m data)[i]? =
            some (if v = 0 ∧ pz = true then (0 : Int)
                  else (lookupD m v).elim 0 (wrapI d.bits)) := by
  intro d pz data m m' hnd hperm
  have hnd' : (m'.map Prod.fst).Nodup := ((hperm.map Prod.fst).nodup_iff).mpr hnd
  have hpoint : ∀ (mm : List (Int × Int)), (mm.map Prod.fst).Nodup →
      ∀ (i : Nat) (v : Int), data[i]? = some v →
        (applyMapping d pz mm data)[i]? =
          some (if v = 0 ∧ pz = true then (0 : Int)
                else (lookupD mm v).elim 0 (wrapI d.bits)) := by
    intro mm hmm i v hv
    rw [applyMapping_getElem? d pz mm data i v hv, lastWrite_of_nodup pz v mm hmm]
    by_cases hc : v = 0 ∧ pz = true
    · simp [hc]
    · simp [hc]
  constructor
  · apply List.ext_getElem?
    intro n
    cases hv : data[n]? with
    | none =>
      have hlen : data.length ≤ n := by
        by_contra hlt
        push_neg at hlt
        rw [List.getElem?_eq_getElem hlt] at hv
        exact Option.noConfusion hv
      have h1 : (applyMapping d pz m' data).length ≤ n := by
        rw [applyMapping_length]; exact hlen
      have h2 : (applyMapping d pz m data).length ≤ n := by
        rw [applyMapping_length]; exact hlen
      rw [List.getElem?_eq_none h1, List.getElem?_eq_none h2]
    | some v =>
      rw [hpoint m' hnd' n v hv, hpoint m hnd n v hv]
      by_cases hc : v = 0 ∧ pz = true
      · rw [if_pos hc, if_pos hc]
      · simp only [if_neg hc]
        rw [lookupD_perm m' m hperm hnd' v]
  · exact hpoint m hnd

/-- Witness for C7: swapping the two pairs of a mapping leaves the output
array unchanged. -/
theorem apply_order_invariant_witness :
    (([(1, 5), (2, 6)] : List (Int × Int)).map Prod.fst).Nodup ∧
      ([(2, 6), (1, 5)] : List (Int × Int)).Perm [(1, 5), (2, 6)] ∧
      applyMapping IntDtype.int8 true [(2, 6), (1, 5)] [1, 2, 0] =
        applyMapping IntDtype.int8 true [(1, 5), (2, 6)] [1, 2, 0] :=
  ⟨by decide, by decide,
    (apply_order_invariant IntDtype.int8 true [1, 2, 0] [(1, 5), (2, 6)]
      [(2, 6), (1, 5)] (by decide) (by decide)).1⟩

/-- Counterexample to claim C8 as stated: the header is not carried over
unchanged — `set_data_dtype` rewrites its data-dtype field. Here the input
header records 16-bit data but the transform auto-selects 8-bit, so the
output header differs from the input header (while the affine is
unchanged). -/
theorem header_not_unchanged :
    (combine_dseg_labels (⟨[0], 0, ⟨0, IntDtype.int16⟩⟩ : Volume Int Int)
        (Groups.seq [[1]]) 1 true none).header ≠
      (⟨[0], 0, ⟨0, IntDtype.int16⟩⟩ : Volume Int Int).header ∧
    (combine_dseg_labels (⟨[0], 0, ⟨0, IntDtype.int16⟩⟩ : Volume Int Int)
        (Groups.seq [[1]]) 1 true none).affine =
      (⟨[0], 0, ⟨0, IntDtype.int16⟩⟩ : Volume Int Int).affine := by
  decide

/-- Claim C8 (amended): the transform never mutates the input volume (it
is a pure function of it); the output volume carries the input's affine
and all spatial header fields over unchanged, while the header's
data-dtype field is set to the selected output dtype and the voxel array
is the freshly built remapped array. -/
theorem metadata_passthrough :
    ∀ (A S : Type) (v : Volume A S) (g : Groups) (s : Int) (pz : Bool)
      (od : Option IntDtype),
      (combine_dseg_labels v g s pz od).affine = v.affine
      ∧ (combine_dseg_labels v g s pz od).header.spatial = v.header.spatial
      ∧ (combine_dseg_labels v g s pz od).header.datatype =
          chooseDtype od (buildGroups g s).1 pz
      ∧ (combine_dseg_labels v g s pz od).data =
          applyMapping (chooseDtype od (buildGroups g s).1 pz) pz
            (buildGroups g s).1 v.data :=
  fun _ _ _ _ _ _ _ => ⟨rfl, rfl, rfl, rfl⟩

/-- Claim C9: an empty grouping (either form) succeeds, builds an empty
mapping with no warnings, auto-selects signed 8-bit (the needed maximum is
at most 1), and produces an all-zero output of the input's length
regardless of the input voxel values. -/
theorem empty_grouping_all_zero :
    (∀ s : Int, buildSeq [] s = ([], []))
    ∧ buildMap [] = ([], [])
    ∧ (∀ pz : Bool, neededMax [] pz ≤ 1)
    ∧ (∀ pz : Bool, chooseDtype none [] pz = IntDtype.int8)
    ∧ (∀ (d : IntDtype) (pz : Bool) (data : List Int),
        applyMapping d pz [] data = List.replicate data.length 0)
    ∧ (∀ (A S : Type) (v : Volume A S) (s : Int) (pz : Bool),
        (combine_dseg_labels v (Groups.seq []) s pz none).data =
          List.replicate v.data.length 0)
    ∧ (∀ (A S : Type) (v : Volume A S) (s : Int) (pz : Bool),
        (combine_dseg_labels v (Groups.map []) s pz none).data =
          List.replicate v.data.length 0) := by
  refine ⟨fun s => rfl, rfl, ?_, ?_, fun d pz data => rfl,
    fun A S v s pz => rfl, fun A S v s pz => rfl⟩
  · intro pz
    cases pz <;> decide
  · intro pz
    cases pz <;> decide

/-- Claim C10: the input voxel values handed to the mapping loop are the
int-cast of the float32-read volume; modelling that conversion by any
predicate `A` covering every converted value, a mapping entry whose key
is not attainable (fails `A` — e.g. lies outside the signed 32-bit range)
matches no voxel, and removing it leaves the output unchanged. -/
theorem unattainable_key_inert :
    ∀ (A : Int → Prop) (d : IntDtype) (pz : Bool) (data : List Int)
      (m1 m2 : List (Int × Int)) (k nl : Int),
      (∀ v ∈ data, A v) → ¬ A k →
      applyMapping d pz (m1 ++ (k, nl) :: m2) data =
        applyMapping d pz (m1 ++ m2) data := by
  intro A d pz data m1 m2 k nl hdata hk
  unfold applyMapping
  rw [List.foldl_append, List.foldl_append, List.foldl_cons]
  congr 1
  apply applyPair_nomatch
  · exact foldl_applyPair_length d pz data m1 _ (List.length_replicate _ _)
  · intro v hv hvk
    have hAv := hdata v hv
    rw [hvk] at hAv
    exact hk hAv

/-- Witness for C10: the key 2^32, outside the signed 32-bit range every
converted voxel value lies in, matches nothing; dropping its entry leaves
the output unchanged. -/
theorem unattainable_key_inert_witness :
    (∀ v ∈ ([1] : List Int), -2147483648 ≤ v ∧ v ≤ 2147483647) ∧
      ¬ (-2147483648 ≤ (4294967296 : Int) ∧ (4294967296 : Int) ≤ 2147483647) ∧
      applyMapping IntDtype.int8 true ([] ++ (4294967296, 7) :: []) [1] =
        applyMapping IntDtype.int8 true ([] ++ []) [1] :=
  ⟨by decide, by decide,
    unattainable_key_inert (fun v => -2147483648 ≤ v ∧ v ≤ 2147483647)
      IntDtype.int8 true [1] [] [] 4294967296 7 (by decide) (by decide)⟩

end CombineDseg
